import Mathlib

/-!
Verification of the kinematic vehicle simulation and geometric judging engine
of the reverse-parking simulator.  The definitions below are a shallow
embedding, over the real numbers, of the TypeScript source: the bicycle-model
integrator `updateCarPhysics`, the rotated-rectangle geometry
(`getCarCorners`, `isPointInRect`), the collision detector `checkCollision`,
the parking judge `checkSuccess`, the predictive path generator
`getPredictivePath`, the steering mapper of `SteeringWheel.tsx`, and the
telemetry payload fields of `getDrivingAdvice`.
-/

open Real

noncomputable section

namespace Parking

/-- `Point` from types.ts: a 2D world point. -/
structure Point where
  x : ℝ
  y : ℝ

/-- `Size` from types.ts: a width/height pair. -/
structure Size where
  width : ℝ
  height : ℝ

/-- `CarState` from types.ts: center position, heading (radians, 0 = east),
steering angle (radians) and signed speed. -/
structure CarState where
  x : ℝ
  y : ℝ
  rotation : ℝ
  steeringAngle : ℝ
  speed : ℝ

/-- `Wall` / `ParkingSpot` from types.ts: an axis-aligned rectangle. -/
structure Rect where
  x : ℝ
  y : ℝ
  width : ℝ
  height : ℝ

/-- `getCarCorners` from the simulation module: the four corners of the
vehicle rectangle, obtained by rotating the local corners
(±width/2, ±height/2) by `rotation` and translating by the center.
Order: bottom-right, bottom-left, top-left, top-right, as in the source. -/
def getCarCorners (state : CarState) (size : Size) : List Point :=
  let hw := size.width / 2
  let hh := size.height / 2
  let corners : List Point :=
    [⟨hw, hh⟩, ⟨-hw, hh⟩, ⟨-hw, -hh⟩, ⟨hw, -hh⟩]
  let c := Real.cos state.rotation
  let s := Real.sin state.rotation
  corners.map fun p =>
    ⟨state.x + (p.x * c - p.y * s), state.y + (p.x * s + p.y * c)⟩

/-- `isPointInRect` from the simulation module:
`p.x >= rect.x && p.x <= rect.x + rect.width && p.y >= rect.y && p.y <= rect.y + rect.height`. -/
def isPointInRect (p : Point) (rect : Rect) : Prop :=
  rect.x ≤ p.x ∧ p.x ≤ rect.x + rect.width ∧
  rect.y ≤ p.y ∧ p.y ≤ rect.y + rect.height

instance (p : Point) (rect : Rect) : Decidable (isPointInRect p rect) := by
  unfold isPointInRect; exact Classical.propDecidable _

/-- `checkCollision` from the simulation module: loop over the four corners,
then over the walls, returning true on the first corner contained in a wall. -/
def checkCollision (carState : CarState) (carSize : Size) (walls : List Rect) : Bool :=
  let corners := getCarCorners carState carSize
  corners.any fun corner => walls.any fun wall => decide (isPointInRect corner wall)

/-- The JavaScript `%` operator on reals: `a - b * trunc (a / b)`, where the
quotient is truncated toward zero. -/
def jsRem (a b : ℝ) : ℝ :=
  a - b * (if 0 ≤ a / b then (⌊a / b⌋ : ℝ) else (⌈a / b⌉ : ℝ))

/-- `checkSuccess` from the simulation module: all four corners inside the
spot, and the heading, normalized into `[0, 2π)` via `%` plus a conditional
`+ 2π`, within `0.2` of the target `1.5π` by the source's two-disjunct test. -/
def checkSuccess (carState : CarState) (carSize : Size) (parkingSpot : Rect) : Bool :=
  let corners := getCarCorners carState carSize
  let isInside := corners.all fun c => decide (isPointInRect c parkingSpot)
  if !isInside then false
  else
    let angle0 := jsRem carState.rotation (2 * π)
    let angle := if angle0 < 0 then angle0 + 2 * π else angle0
    let targetAngle := 1.5 * π
    let angleDiff := |angle - targetAngle|
    decide (angleDiff < 0.2) || decide (|angleDiff - 2 * π| < 0.2)

/-- `updateCarPhysics` from the simulation module: the bicycle-model step.
If `|speed| < 0.01` the state is returned unchanged; otherwise
`dist = speed * dt * 30`, `β = dist / wheelBase * tan steeringAngle`,
the heading is updated first and the translation uses the new heading. -/
def updateCarPhysics (state : CarState) (dt wheelBase : ℝ) : CarState :=
  if |state.speed| < 0.01 then state
  else
    let dist := state.speed * dt * 30
    let beta := dist / wheelBase * Real.tan state.steeringAngle
    let newRotation := state.rotation + beta
    { state with
      x := state.x + dist * Real.cos newRotation
      y := state.y + dist * Real.sin newRotation
      rotation := newRotation }

/-- The loop body of `getPredictivePath`: iterate `updateCarPhysics` with
`dt = 0.5`, collecting the position after each step. -/
def predictivePathAux (wheelBase : ℝ) : CarState → ℕ → List Point
  | _, 0 => []
  | s, n + 1 =>
    let s2 := updateCarPhysics s 0.5 wheelBase
    ⟨s2.x, s2.y⟩ :: predictivePathAux wheelBase s2 n

/-- `getPredictivePath` from the simulation module: pick the simulated speed
(actual signed speed when `|speed| > 0.1`, else `directionSign * 1.5`), then
iterate the integrator `steps` times at `dt = 0.5` from a copy of the state. -/
def getPredictivePath (state : CarState) (wheelBase directionSign : ℝ)
    (steps : ℕ) : List Point :=
  let simSpeed := if 0.1 < |state.speed| then state.speed else directionSign * 1.5
  let tempState := { state with speed := simSpeed }
  predictivePathAux wheelBase tempState steps

/-! ### Steering mapper (SteeringWheel.tsx) -/

/-- `MAX_TURNS` from SteeringWheel.tsx: 1.5 turns each direction. -/
def MAX_TURNS : ℝ := 1.5

/-- `MAX_VISUAL_DEG` from SteeringWheel.tsx: `MAX_TURNS * 360 = 540` degrees. -/
def MAX_VISUAL_DEG : ℝ := MAX_TURNS * 360

/-- `currentVisualRotation` from SteeringWheel.tsx: the wheel's visual
rotation derived from the physics angle,
`(currentPhysicsDeg / maxPhysicsDeg) * MAX_VISUAL_DEG`. -/
def currentVisualRotation (maxAngle angle : ℝ) : ℝ :=
  (angle * 180 / π) / (maxAngle * 180 / π) * MAX_VISUAL_DEG

/-- The output of `handleMove` in SteeringWheel.tsx for one incremental drag
delta: add the delta to the current visual rotation, clamp to
`±MAX_VISUAL_DEG`, and scale back to a physics angle. -/
def handleMove (maxAngle angle delta : ℝ) : ℝ :=
  let newVisual :=
    max (-MAX_VISUAL_DEG) (min MAX_VISUAL_DEG (currentVisualRotation maxAngle angle + delta))
  newVisual / MAX_VISUAL_DEG * maxAngle

/-- The output of `setTurns` in SteeringWheel.tsx: set the visual rotation to
`t * 360`, clamp to `±MAX_VISUAL_DEG`, and scale back to a physics angle. -/
def setTurns (maxAngle t : ℝ) : ℝ :=
  let newVisual := t * 360
  let clamped := max (-MAX_VISUAL_DEG) (min MAX_VISUAL_DEG newVisual)
  clamped / MAX_VISUAL_DEG * maxAngle

/-- The physics angle emitted after a finite sequence of incremental drag
deltas, each processed by `handleMove` and fed back as the component's angle
prop. -/
def emittedAfterDrags (maxAngle angle0 : ℝ) (deltas : List ℝ) : ℝ :=
  deltas.foldl (fun a d => handleMove maxAngle a d) angle0

/-! ### Telemetry payload (getDrivingAdvice) -/

/-- The `headingDegrees` value of the telemetry payload built in
`getDrivingAdvice`: `(carState.rotation * (180 / Math.PI)).toFixed(0)`, i.e.
the raw heading converted to degrees and rounded to the nearest integer
(`toFixed` picks the larger candidate at a tie, as `round` does). -/
def headingDegrees (carState : CarState) : ℤ :=
  round (carState.rotation * (180 / π))

/-! ### Spec-side definitions, used to state the claims' characterizations -/

/-- Spec-side: the heading normalized into `[0, 2π)`. -/
def specNormalizeAngle (θ : ℝ) : ℝ :=
  θ - 2 * π * ⌊θ / (2 * π)⌋

/-- Spec-side: angular distance measured the short way around the circle,
for inputs whose plain difference is at most `2π` in magnitude. -/
def circularDistance (a b : ℝ) : ℝ :=
  min |a - b| (2 * π - |a - b|)

/-! ### Theorems -/

/-- C1: for every state whose speed magnitude is at least 0.01, and every
`dt` and `wheelBase`, `updateCarPhysics` updates the heading first with
`Δ = (speed * dt * 30) / wheelBase * tan steeringAngle`, then translates by
`speed * dt * 30` along the NEW heading. -/
theorem updateCarPhysics_moving_step (s : CarState) (dt wheelBase : ℝ)
    (h : 0.01 ≤ |s.speed|) :
    updateCarPhysics s dt wheelBase =
      { s with
        rotation := s.rotation + (s.speed * dt * 30) / wheelBase * Real.tan s.steeringAngle
        x := s.x + (s.speed * dt * 30) *
          Real.cos (s.rotation + (s.speed * dt * 30) / wheelBase * Real.tan s.steeringAngle)
        y := s.y + (s.speed * dt * 30) *
          Real.sin (s.rotation + (s.speed * dt * 30) / wheelBase * Real.tan s.steeringAngle) } := by
  unfold updateCarPhysics
  rw [if_neg (not_lt.mpr h)]

/-- Witness for C1: at speed 1, heading 0, steering 0, `dt = 1`,
`wheelBase = 1`, the step moves the car 30 units east. -/
theorem updateCarPhysics_moving_step_witness :
    (0.01 : ℝ) ≤ |(⟨0, 0, 0, 0, 1⟩ : CarState).speed| ∧
    updateCarPhysics ⟨0, 0, 0, 0, 1⟩ 1 1 = ⟨30, 0, 0, 0, 1⟩ := by
  constructor
  · show (0.01 : ℝ) ≤ |(1 : ℝ)|
    rw [abs_one]; norm_num
  · rw [updateCarPhysics_moving_step ⟨0, 0, 0, 0, 1⟩ 1 1
      (by show (0.01 : ℝ) ≤ |(1 : ℝ)|; rw [abs_one]; norm_num)]
    simp [Real.tan_zero, Real.cos_zero, Real.sin_zero]

/-- C5: a state with `|speed| < 0.01` is returned unchanged by
`updateCarPhysics`, for every `dt` and `wheelBase`: no field changes, so a
stationary vehicle has no heading or position drift whatever its steering. -/
theorem updateCarPhysics_rest (s : CarState) (dt wheelBase : ℝ)
    (h : |s.speed| < 0.01) :
    updateCarPhysics s dt wheelBase = s := by
  unfold updateCarPhysics
  rw [if_pos h]

/-- Witness for C5: the initial state, at speed 0 with steering at lock,
is unchanged by a step. -/
theorem updateCarPhysics_rest_witness :
    |(⟨200, 350, 0, 0.7, 0⟩ : CarState).speed| < 0.01 ∧
    updateCarPhysics ⟨200, 350, 0, 0.7, 0⟩ 0.016 26 = ⟨200, 350, 0, 0.7, 0⟩ := by
  have h : |(⟨200, 350, 0, 0.7, 0⟩ : CarState).speed| < 0.01 := by
    show |(0 : ℝ)| < 0.01
    rw [abs_zero]; norm_num
  exact ⟨h, updateCarPhysics_rest _ _ _ h⟩

/-- C10: `updateCarPhysics` never alters the speed or steering-angle fields,
for every state, `dt` and `wheelBase`: the integrator only changes `x`, `y`
and `rotation`. -/
theorem updateCarPhysics_frame (s : CarState) (dt wheelBase : ℝ) :
    (updateCarPhysics s dt wheelBase).speed = s.speed ∧
    (updateCarPhysics s dt wheelBase).steeringAngle = s.steeringAngle := by
  unfold updateCarPhysics
  split <;> simp

/-- C8: a reversing state (`speed ≤ -0.01`) with steering held right
(`0 < steeringAngle < π/2`), stepped with `dt > 0` over a positive
wheelbase, has strictly smaller rotation after the step; hence the heading
decreases monotonically over any sequence of such steps. -/
theorem updateCarPhysics_reverse_right_rotation_lt (s : CarState) (dt wheelBase : ℝ)
    (hspeed : s.speed ≤ -0.01) (hsa0 : 0 < s.steeringAngle)
    (hsa1 : s.steeringAngle < π / 2) (hdt : 0 < dt) (hwb : 0 < wheelBase) :
    (updateCarPhysics s dt wheelBase).rotation < s.rotation := by
  have habs : (0.01 : ℝ) ≤ |s.speed| := by
    rw [abs_of_nonpos (by linarith)]; linarith
  rw [updateCarPhysics_moving_step s dt wheelBase habs]
  have hdist : s.speed * dt * 30 < 0 := by nlinarith
  have htan : 0 < Real.tan s.steeringAngle :=
    Real.tan_pos_of_pos_of_lt_pi_div_two hsa0 hsa1
  have hbeta : (s.speed * dt * 30) / wheelBase * Real.tan s.steeringAngle < 0 :=
    mul_neg_of_neg_of_pos (div_neg_of_neg_of_pos hdist hwb) htan
  show s.rotation + _ < s.rotation
  linarith

/-- Witness for C8: at speed −2, steering π/4, `dt = 1`, `wheelBase = 26`,
the rotation strictly decreases. -/
theorem updateCarPhysics_reverse_right_rotation_lt_witness :
    (⟨200, 350, 0, π / 4, -2⟩ : CarState).speed ≤ -0.01 ∧
    0 < (⟨200, 350, 0, π / 4, -2⟩ : CarState).steeringAngle ∧
    (⟨200, 350, 0, π / 4, -2⟩ : CarState).steeringAngle < π / 2 ∧
    (0 : ℝ) < 1 ∧ (0 : ℝ) < 26 ∧
    (updateCarPhysics ⟨200, 350, 0, π / 4, -2⟩ 1 26).rotation <
      (⟨200, 350, 0, π / 4, -2⟩ : CarState).rotation := by
  have h1 : (⟨200, 350, 0, π / 4, -2⟩ : CarState).speed ≤ -0.01 := by
    show (-2 : ℝ) ≤ -0.01; norm_num
  have h2 : (0 : ℝ) < π / 4 := by positivity
  have h3 : π / 4 < π / 2 := by linarith [Real.pi_pos]
  exact ⟨h1, h2, h3, by norm_num, by norm_num,
    updateCarPhysics_reverse_right_rotation_lt _ _ _ h1 h2 h3 (by norm_num) (by norm_num)⟩

/-- C9: `checkSuccess` is speed-agnostic: replacing the speed field by any
two values yields the same verdict, for every state, car size and spot. -/
theorem checkSuccess_speed_agnostic (s : CarState) (sz : Size) (spot : Rect)
    (v1 v2 : ℝ) :
    checkSuccess { s with speed := v1 } sz spot =
      checkSuccess { s with speed := v2 } sz spot := rfl

/-- C3: `checkCollision` is true iff at least one of the four corners lies
inside at least one obstacle rectangle under closed inclusive bounds; it is a
corner-only test, with no other condition contributing. -/
theorem checkCollision_iff (s : CarState) (sz : Size) (walls : List Rect) :
    checkCollision s sz walls = true ↔
      ∃ c ∈ getCarCorners s sz, ∃ w ∈ walls,
        w.x ≤ c.x ∧ c.x ≤ w.x + w.width ∧ w.y ≤ c.y ∧ c.y ≤ w.y + w.height := by
  simp [checkCollision, List.any_eq_true, isPointInRect]

/-- C7 counterexample: for the state with heading `-π/2` (a quarter turn
clockwise from east), the telemetry `headingDegrees` is `-90`, which is not
in the range 0–359. -/
theorem headingDegrees_not_always_in_range :
    ¬ (0 ≤ headingDegrees ⟨200, 350, -(π / 2), 0, 0⟩ ∧
       headingDegrees ⟨200, 350, -(π / 2), 0, 0⟩ ≤ 359) := by
  have hdeg : (-(π / 2)) * (180 / π) = (-90 : ℝ) := by
    field_simp
    ring
  have h : headingDegrees ⟨200, 350, -(π / 2), 0, 0⟩ = -90 := by
    unfold headingDegrees
    show round ((-(π / 2)) * (180 / π)) = -90
    rw [hdeg]
    have : ((-90 : ℤ) : ℝ) = -90 := by norm_num
    rw [← this, round_intCast]
  rw [h]
  omega

/-- C7 amended: `headingDegrees` is the heading converted to degrees and
rounded to the nearest integer, with no normalization; it lies in 0–359
exactly when the raw heading does — in particular for every state whose
rotation is nonnegative and at most 359 degrees. -/
theorem headingDegrees_in_range_of_rotation_in_range (s : CarState)
    (h0 : 0 ≤ s.rotation) (h1 : s.rotation * (180 / π) ≤ 359) :
    0 ≤ headingDegrees s ∧ headingDegrees s ≤ 359 := by
  have hd0 : 0 ≤ s.rotation * (180 / π) :=
    mul_nonneg h0 (by positivity)
  unfold headingDegrees
  rw [round_eq]
  refine ⟨Int.floor_nonneg.mpr (by linarith), ?_⟩
  have hlt : ⌊s.rotation * (180 / π) + 1 / 2⌋ < 360 :=
    Int.floor_lt.mpr (by push_cast; linarith)
  omega

/-- Witness for C7's amended claim: at rotation 0 the telemetry heading is
in range. -/
theorem headingDegrees_in_range_witness :
    0 ≤ (⟨0, 0, 0, 0, 0⟩ : CarState).rotation ∧
    (⟨0, 0, 0, 0, 0⟩ : CarState).rotation * (180 / π) ≤ 359 ∧
    0 ≤ headingDegrees ⟨0, 0, 0, 0, 0⟩ ∧ headingDegrees ⟨0, 0, 0, 0, 0⟩ ≤ 359 := by
  have h0 : (0 : ℝ) ≤ (⟨0, 0, 0, 0, 0⟩ : CarState).rotation := le_refl _
  have h1 : (⟨0, 0, 0, 0, 0⟩ : CarState).rotation * (180 / π) ≤ 359 := by
    show (0 : ℝ) * (180 / π) ≤ 359
    rw [zero_mul]; norm_num
  have h := headingDegrees_in_range_of_rotation_in_range ⟨0, 0, 0, 0, 0⟩ h0 h1
  exact ⟨h0, h1, h.1, h.2⟩

/-- Any clamped visual rotation, scaled back to a physics angle, is bounded
by the maximum steering angle. -/
theorem clamped_physics_abs_le (maxAngle v : ℝ) (hmax : 0 ≤ maxAngle) :
    |max (-MAX_VISUAL_DEG) (min MAX_VISUAL_DEG v) / MAX_VISUAL_DEG * maxAngle| ≤ maxAngle := by
  have h540 : MAX_VISUAL_DEG = 540 := by norm_num [MAX_VISUAL_DEG, MAX_TURNS]
  rw [h540]
  set c := max (-(540 : ℝ)) (min 540 v) with hc
  have hub : c ≤ 540 := max_le (by norm_num) (min_le_left _ _)
  have hlb : -(540 : ℝ) ≤ c := le_max_left _ _
  have habs : |c| ≤ 540 := abs_le.mpr ⟨hlb, hub⟩
  rw [abs_mul, abs_div, abs_of_nonneg hmax]
  rw [show |(540 : ℝ)| = 540 by norm_num]
  rw [div_mul_eq_mul_div, div_le_iff₀ (by norm_num : (0 : ℝ) < 540)]
  nlinarith [abs_nonneg c]

/-- C4: every physics angle the steering mapper emits — from one drag delta,
from a quick-set `setTurns`, or after any nonempty sequence of incremental
drag deltas — has magnitude at most `maxAngle`, because the visual rotation
is clamped to `±540°` before being scaled by `maxAngle / 540`. -/
theorem steeringMapper_output_bounded (maxAngle : ℝ) (hmax : 0 ≤ maxAngle) :
    (∀ angle delta : ℝ, |handleMove maxAngle angle delta| ≤ maxAngle) ∧
    (∀ t : ℝ, |setTurns maxAngle t| ≤ maxAngle) ∧
    (∀ (angle0 : ℝ) (deltas : List ℝ), deltas ≠ [] →
      |emittedAfterDrags maxAngle angle0 deltas| ≤ maxAngle) := by
  have hmove : ∀ angle delta : ℝ, |handleMove maxAngle angle delta| ≤ maxAngle :=
    fun angle delta => clamped_physics_abs_le maxAngle _ hmax
  refine ⟨hmove, fun t => clamped_physics_abs_le maxAngle _ hmax, ?_⟩
  have aux : ∀ (ds : List ℝ) (a : ℝ), |a| ≤ maxAngle →
      |ds.foldl (fun x d => handleMove maxAngle x d) a| ≤ maxAngle := by
    intro ds
    induction ds with
    | nil => intro a ha; simpa using ha
    | cons d ds ih =>
      intro a _
      rw [List.foldl_cons]
      exact ih _ (hmove a d)
  intro angle0 deltas hne
  cases deltas with
  | nil => exact absurd rfl hne
  | cons d ds =>
    unfold emittedAfterDrags
    rw [List.foldl_cons]
    exact aux ds _ (hmove angle0 d)

/-- Witness for C4: with the app's lock limit `π/4` and a single 600°
overshooting drag delta from center, the emitted angle stays within bounds. -/
theorem steeringMapper_output_bounded_witness :
    (0 : ℝ) ≤ π / 4 ∧ ([(600 : ℝ)] ≠ ([] : List ℝ)) ∧
    |emittedAfterDrags (π / 4) 0 [600]| ≤ π / 4 := by
  have hmax : (0 : ℝ) ≤ π / 4 := by positivity
  exact ⟨hmax, by simp,
    (steeringMapper_output_bounded (π / 4) hmax).2.2 0 [600] (by simp)⟩

/-- The predictive-path loop collects, in order, the positions of the
successive iterates of the integrator at `dt = 0.5`. -/
theorem predictivePathAux_eq_map (wheelBase : ℝ) (n : ℕ) :
    ∀ s : CarState,
      predictivePathAux wheelBase s n =
        (List.range n).map fun i =>
          (⟨((fun st => updateCarPhysics st 0.5 wheelBase)^[i + 1] s).x,
            ((fun st => updateCarPhysics st 0.5 wheelBase)^[i + 1] s).y⟩ : Point) := by
  induction n with
  | zero => intro s; simp [predictivePathAux]
  | succ n ih =>
    intro s
    rw [predictivePathAux, List.range_succ_eq_map, List.map_cons, List.map_map]
    refine congrArg₂ _ ?_ ?_
    · simp
    · rw [ih (updateCarPhysics s 0.5 wheelBase)]
      refine List.map_congr_left fun i _ => ?_
      simp [Function.comp, Function.iterate_succ_apply]

/-- C6: `getPredictivePath` returns exactly `steps` points, with no early
termination, and the points are the successive positions of iterating
`updateCarPhysics` at `dt = 0.5` from a copy of the state whose speed is the
actual signed speed when `|speed| > 0.1` and `directionSign * 1.5` otherwise. -/
theorem getPredictivePath_spec (s : CarState) (wheelBase directionSign : ℝ)
    (steps : ℕ) :
    (getPredictivePath s wheelBase directionSign steps).length = steps ∧
    getPredictivePath s wheelBase directionSign steps =
      (List.range steps).map fun i =>
        (⟨((fun st => updateCarPhysics st 0.5 wheelBase)^[i + 1]
            { s with speed := if 0.1 < |s.speed| then s.speed else directionSign * 1.5 }).x,
          ((fun st => updateCarPhysics st 0.5 wheelBase)^[i + 1]
            { s with speed := if 0.1 < |s.speed| then s.speed else directionSign * 1.5 }).y⟩
          : Point) := by
  have h := predictivePathAux_eq_map wheelBase steps
    { s with speed := if 0.1 < |s.speed| then s.speed else directionSign * 1.5 }
  constructor
  · show (predictivePathAux wheelBase _ steps).length = steps
    rw [h]
    simp
  · exact h

theorem specNormalizeAngle_eq_fract (θ : ℝ) :
    specNormalizeAngle θ = 2 * π * Int.fract (θ / (2 * π)) := by
  have h2π : (2 * π) ≠ 0 := by positivity
  unfold specNormalizeAngle
  rw [← Int.self_sub_floor, mul_sub, mul_div_cancel₀ _ h2π]

theorem specNormalizeAngle_nonneg (θ : ℝ) : 0 ≤ specNormalizeAngle θ := by
  rw [specNormalizeAngle_eq_fract]
  exact mul_nonneg (by positivity) (Int.fract_nonneg _)

theorem specNormalizeAngle_lt_two_pi (θ : ℝ) : specNormalizeAngle θ < 2 * π := by
  rw [specNormalizeAngle_eq_fract]
  have h1 := Int.fract_lt_one (θ / (2 * π))
  have h2π : (0 : ℝ) < 2 * π := by positivity
  nlinarith [Int.fract_nonneg (θ / (2 * π))]

/-- The source's normalization — JavaScript `%` by `2π` followed by a
conditional `+ 2π` — agrees with the mathematical reduction into `[0, 2π)`. -/
theorem code_normalize_eq_spec (θ : ℝ) :
    (if jsRem θ (2 * π) < 0 then jsRem θ (2 * π) + 2 * π else jsRem θ (2 * π)) =
      specNormalizeAngle θ := by
  unfold jsRem
  by_cases hx : 0 ≤ θ / (2 * π)
  · rw [if_pos hx]
    have heq : θ - 2 * π * (⌊θ / (2 * π)⌋ : ℝ) = specNormalizeAngle θ := rfl
    rw [heq, if_neg (not_lt.mpr (specNormalizeAngle_nonneg θ))]
  · rw [if_neg hx]
    by_cases hfz : Int.fract (θ / (2 * π)) = 0
    · have hint : θ / (2 * π) = (⌊θ / (2 * π)⌋ : ℝ) := by
        have h := Int.self_sub_floor (θ / (2 * π))
        rw [hfz] at h
        linarith
      rw [hint, Int.ceil_intCast, ← hint]
      rw [hint]
      have heq : θ - 2 * π * (⌊θ / (2 * π)⌋ : ℝ) = specNormalizeAngle θ := rfl
      rw [heq, if_neg (not_lt.mpr (specNormalizeAngle_nonneg θ))]
    · have hfpos : 0 < Int.fract (θ / (2 * π)) :=
        lt_of_le_of_ne (Int.fract_nonneg _) (Ne.symm hfz)
      have hfl : (⌊θ / (2 * π)⌋ : ℝ) < θ / (2 * π) := by
        have h := Int.self_sub_floor (θ / (2 * π))
        linarith
      have hceil : ⌈θ / (2 * π)⌉ = ⌊θ / (2 * π)⌋ + 1 := by
        rw [Int.ceil_eq_iff]
        constructor
        · push_cast
          linarith
        · push_cast
          linarith [Int.lt_floor_add_one (θ / (2 * π))]
      rw [hceil]
      have hval : θ - 2 * π * ((⌊θ / (2 * π)⌋ + 1 : ℤ) : ℝ) =
          specNormalizeAngle θ - 2 * π := by
        unfold specNormalizeAngle
        push_cast
        ring
      rw [hval, if_pos (by linarith [specNormalizeAngle_lt_two_pi θ])]
      ring

/-- For a heading already reduced into `[0, 2π)`, the source's two-disjunct
alignment test agrees with the short-way circular distance to `1.5π`. -/
theorem aligned_iff_circularDistance (angle : ℝ) (h0 : 0 ≤ angle)
    (h2 : angle < 2 * π) :
    (|angle - 1.5 * π| < 0.2 ∨ |(|angle - 1.5 * π|) - 2 * π| < 0.2) ↔
      circularDistance angle (1.5 * π) < 0.2 := by
  have hπ3 : (3 : ℝ) < π := Real.pi_gt_three
  set d := |angle - 1.5 * π| with hd
  have hd0 : 0 ≤ d := abs_nonneg _
  have hdub : d ≤ 1.5 * π := by
    rw [hd, abs_le]
    constructor <;> linarith
  have hsecond : ¬ (|d - 2 * π| < 0.2) := by
    rw [abs_of_nonpos (by linarith : d - 2 * π ≤ 0)]
    intro h
    linarith
  unfold circularDistance
  rw [← hd]
  constructor
  · rintro (h | h)
    · exact lt_of_le_of_lt (min_le_left _ _) h
    · exact absurd h hsecond
  · intro h
    left
    rcases min_lt_iff.mp h with h1 | h1
    · exact h1
    · linarith

/-- C2: `checkSuccess` is true iff all four corners lie in the spot under
inclusive bounds AND the heading, normalized into `[0, 2π)`, is within 0.2
rad of the target `1.5π` by short-way circular distance; in particular a
fully contained state whose normalized heading is 0 is not judged parked. -/
theorem checkSuccess_characterization :
    (∀ (s : CarState) (sz : Size) (spot : Rect),
      checkSuccess s sz spot = true ↔
        ((∀ c ∈ getCarCorners s sz, isPointInRect c spot) ∧
         circularDistance (specNormalizeAngle s.rotation) (1.5 * π) < 0.2)) ∧
    (∀ (s : CarState) (sz : Size) (spot : Rect),
      (∀ c ∈ getCarCorners s sz, isPointInRect c spot) →
      specNormalizeAngle s.rotation = 0 →
      checkSuccess s sz spot = false) := by
  have hπ3 : (3 : ℝ) < π := Real.pi_gt_three
  have main : ∀ (s : CarState) (sz : Size) (spot : Rect),
      checkSuccess s sz spot = true ↔
        ((∀ c ∈ getCarCorners s sz, isPointInRect c spot) ∧
         circularDistance (specNormalizeAngle s.rotation) (1.5 * π) < 0.2) := by
    intro s sz spot
    by_cases hin : ∀ c ∈ getCarCorners s sz, isPointInRect c spot
    · have hall : ((getCarCorners s sz).all fun c => decide (isPointInRect c spot)) = true := by
        rw [List.all_eq_true]
        intro c hc
        exact decide_eq_true (hin c hc)
      simp only [checkSuccess]
      rw [hall]
      simp only [Bool.not_true, Bool.false_eq_true, if_false]
      rw [code_normalize_eq_spec s.rotation]
      rw [Bool.or_eq_true, decide_eq_true_eq, decide_eq_true_eq]
      rw [aligned_iff_circularDistance _ (specNormalizeAngle_nonneg _)
        (specNormalizeAngle_lt_two_pi _)]
      exact ⟨fun h => ⟨hin, h⟩, fun h => h.2⟩
    · have hall : ((getCarCorners s sz).all fun c => decide (isPointInRect c spot)) = false := by
        rw [Bool.eq_false_iff]
        intro h
        exact hin fun c hc => of_decide_eq_true (List.all_eq_true.mp h c hc)
      simp only [checkSuccess]
      rw [hall]
      simp [hin]
  refine ⟨main, fun s sz spot hin hzero => ?_⟩
  rw [Bool.eq_false_iff]
  intro h
  obtain ⟨-, hcirc⟩ := (main s sz spot).mp h
  rw [hzero] at hcirc
  unfold circularDistance at hcirc
  have habs : |(0 : ℝ) - 1.5 * π| = 1.5 * π := by
    rw [zero_sub, abs_neg, abs_of_nonneg (by positivity)]
  rw [habs] at hcirc
  rcases min_lt_iff.mp hcirc with h1 | h1 <;> linarith

/-- Witness for C2's "in particular" part: a tiny car centered in the spot
with heading 0 has all corners contained, normalized heading 0, and is not
judged parked. -/
theorem checkSuccess_characterization_witness :
    (∀ c ∈ getCarCorners ⟨1, 1, 0, 0, 0⟩ ⟨2, 2⟩, isPointInRect c ⟨0, 0, 2, 2⟩) ∧
    specNormalizeAngle (⟨1, 1, 0, 0, 0⟩ : CarState).rotation = 0 ∧
    checkSuccess ⟨1, 1, 0, 0, 0⟩ ⟨2, 2⟩ ⟨0, 0, 2, 2⟩ = false := by
  have hin : ∀ c ∈ getCarCorners ⟨1, 1, 0, 0, 0⟩ ⟨2, 2⟩, isPointInRect c ⟨0, 0, 2, 2⟩ := by
    intro c hc
    simp only [getCarCorners, Real.cos_zero, Real.sin_zero, List.map_cons,
      List.map_nil, List.mem_cons, List.not_mem_nil, or_false] at hc
    rcases hc with h | h | h | h <;>
      · rw [h]
        unfold isPointInRect
        norm_num
  have hz : specNormalizeAngle (⟨1, 1, 0, 0, 0⟩ : CarState).rotation = 0 := by
    show specNormalizeAngle 0 = 0
    unfold specNormalizeAngle
    norm_num
  exact ⟨hin, hz, checkSuccess_characterization.2 _ _ _ hin hz⟩

end Parking

end
